import Mathlib

/-!
Verification of the friendly-errors webpack plugin
(`src/friendly-errors-plugin.js`) against its natural-language
specification.  The JavaScript is shallowly embedded: severity values
live in `Option Int` (a record may lack a numeric `severity` field, and
the JS comparisons `x > res` / `x === m` are both false on `undefined`),
timestamps are `Int`, the instance field `this.previousEndTimes` becomes
an explicitly threaded map `Nat -> Option Int`, and the console sink
becomes a list of emitted events.  Modules of the repository that are
required by the plugin but whose code is not available
(`utils`, `core/transformErrors`, `core/formatErrors`, the concrete
built-in transformer/formatter rules) are modelled from the spec and
marked as such in their doc comments.
-/

set_option autoImplicit false

namespace FriendlyErrors

/-! ## Data model -/

/-- A raw diagnostic record as handed over by the build tool
(`compilation.getErrors()` / `compilation.getWarnings()`). -/
structure RawError where
  message : String
  file : Option String
  deriving Repr, DecidableEq

/-- The transformer chain's output record.  `severity` is `Option Int`:
`none` models a record whose `severity` field is absent, on which every
JS `>` and `===` comparison against a number is false. -/
structure EnrichedError where
  name : String
  message : String
  file : Option String
  severity : Option Int
  deriving Repr, DecidableEq

/-- The result object of one compilation, exposing
`getErrors()` and `getWarnings()`. -/
structure Compilation where
  errors : List RawError
  warnings : List RawError
  deriving Repr, DecidableEq

/-- Start/end timestamps of one (sub-)compilation's stats object. -/
structure Stats where
  startTime : Int
  endTime : Int
  deriving Repr, DecidableEq

/-- A stats argument to the done hook: single stats or a multi-stats
object carrying one stats per build target (`isMultiStats` checks the
`stats.stats` field). -/
inductive StatsLike where
  | single (s : Stats)
  | multi (ss : List Stats)
  deriving Repr, DecidableEq

/-! ## Severity selection (source: `getMaxInt`, `getMaxSeverityErrors`) -/

/-- One step of the `reduce` inside `getMaxInt`:
`curr[propertyName] > res ? curr[propertyName] : res`.  A missing
severity (`none`) never compares greater, mirroring `undefined > res`
being false in JS. -/
def getMaxIntStep (res : Int) (curr : EnrichedError) : Int :=
  match curr.severity with
  | some v => if res < v then v else res
  | none => res

/-- Source `getMaxInt(collection, propertyName)`, specialised to the only
property it is called with (`severity`):
`collection.reduce((res, curr) => curr[propertyName] > res ? curr[propertyName] : res, 0)`. -/
def getMaxInt (collection : List EnrichedError) : Int :=
  collection.foldl getMaxIntStep 0

/-- Source `getMaxSeverityErrors(errors)`:
`errors.filter(e => e.severity === maxSeverity)` with
`maxSeverity = getMaxInt(errors, 'severity')`.  A record with a missing
severity never satisfies the strict equality. -/
def getMaxSeverityErrors (errors : List EnrichedError) : List EnrichedError :=
  errors.filter (fun e => e.severity == some (getMaxInt errors))

/-! ## Deduplication (source: `extractErrorsFromStats`; `uniqueBy` is in
the repository's `utils` module, which is not available) -/

/-- Helper for `uniqueBy`: walk the list keeping the first occurrence of
each key, remembering the keys already seen. -/
def uniqueByAux (key : RawError → String) : List RawError → List String → List RawError
  | [], _ => []
  | x :: xs, seen =>
    if key x ∈ seen then uniqueByAux key xs seen
    else x :: uniqueByAux key xs (key x :: seen)

/-- Modelled from the spec: `utils.uniqueBy` (the `utils` module is not
in the available sources).  "Two records are duplicates iff their
`message` fields are exactly equal ... Keeps the first occurrence in
original order; stable, not order-randomizing." -/
def uniqueBy (l : List RawError) (key : RawError → String) : List RawError :=
  uniqueByAux key l []

/-- Source `extractErrorsFromStats(stats, type, compilation)`: picks
warnings or errors from the compilation and deduplicates them by their
`message` field via `uniqueBy`. -/
def extractErrorsFromStats (type_ : String) (compilation : Compilation) : List RawError :=
  uniqueBy
    (if type_ == "warnings" then compilation.warnings else compilation.errors)
    (fun error => error.message)

/-! ## Transformer chain (spec-modelled: `core/transformErrors` is not in
the available sources) -/

/-- A transformer: a pure function from a raw error to an enriched
error, or `none` to decline. -/
def Transformer : Type := RawError → Option EnrichedError

/-- Modelled from the spec: the default EnrichedError produced when every
transformer declines — "name = generic, message = raw message, severity
= lowest defined built-in severity, file = best-effort extraction". -/
def defaultEnrich (raw : RawError) : EnrichedError :=
  { name := "generic", message := raw.message, file := raw.file, severity := some 0 }

/-- Modelled from the spec: the per-record transformer chain of
`core/transformErrors` — "tries each transformer strictly in the order
supplied, returning the first non-none result", with the generic
fallback when every transformer declines. -/
def applyTransformers (ts : List Transformer) (raw : RawError) : EnrichedError :=
  match ts with
  | [] => defaultEnrich raw
  | t :: rest =>
    match t raw with
    | some e => e
    | none => applyTransformers rest raw

/-- Modelled from the spec: `transformErrors(errors, transformers)` maps
the chain over the raw records (RawError 1—1 EnrichedError). -/
def transformErrors (errors : List RawError) (transformers : List Transformer) : List EnrichedError :=
  errors.map (applyTransformers transformers)

/-! ## Formatter chain (spec-modelled: `core/formatErrors` and the
built-in formatter rules are not in the available sources) -/

/-- A formatter: a pure function from an enriched error to a rendered
block of text lines, or `none` to decline. -/
def Formatter : Type := EnrichedError → Option (List String)

/-- Modelled from the spec: the default/generic formatter — "prints a
blank-line-separated block: severity-label in file, then the raw
message". -/
def defaultFormat (severity : String) (e : EnrichedError) : List String :=
  [severity ++ "  in " ++ e.file.getD "", "", e.message]

/-- Modelled from the spec: the per-record formatter chain — "tried
per-record in order ...; first match wins; no match falls back to a
default formatter". -/
def applyFormatters (fs : List Formatter) (severity : String) (e : EnrichedError) : List String :=
  match fs with
  | [] => defaultFormat severity e
  | f :: rest =>
    match f e with
    | some block => block
    | none => applyFormatters rest severity e

/-- Modelled from the spec: `formatErrors(errors, formatters, severity)`
renders each record through the chain, in input order. -/
def formatErrors (errors : List EnrichedError) (formatters : List Formatter) (severity : String) :
    List (List String) :=
  errors.map (applyFormatters formatters severity)

/-! ## Plugin construction (source: `constructor(options)`) -/

/-- The `compilationSuccessInfo` option (`messages` / `notes`, each
optional). -/
structure SuccessInfo where
  messages : Option (List String)
  notes : Option (List String)

/-- The options object accepted by the constructor.  `hasOnErrors`
records whether an `onErrors` callback was supplied. -/
structure Options where
  compilationSuccessInfo : Option SuccessInfo
  hasOnErrors : Bool
  clearConsole : Option Bool
  additionalFormatters : Option (List Formatter)
  additionalTransformers : Option (List Transformer)

/-- Modelled from the spec: `utils.concat` (the `utils` module is not in
the available sources) as used by the constructor — caller-supplied
additions are "appended after built-ins"; an absent option contributes
nothing. -/
def concatChain {α : Type} (base : List α) (extra : Option (List α)) : List α :=
  base ++ extra.getD []

/-- The per-instance configuration set up by the constructor. -/
structure PluginConfig where
  compilationSuccessInfo : SuccessInfo
  hasOnErrors : Bool
  shouldClearConsole : Bool
  formatters : List Formatter
  transformers : List Transformer

/-- Source `constructor(options)`: defaults `compilationSuccessInfo` to
`{}`, `shouldClearConsole` to `true` unless `clearConsole` is set, and
builds the chains as built-ins concatenated with the caller's
additions.  The built-in chains are parameters because the built-in
rule modules are not in the available sources. -/
def mkPlugin (builtinTransformers : List Transformer) (builtinFormatters : List Formatter)
    (options : Options) : PluginConfig :=
  { compilationSuccessInfo := options.compilationSuccessInfo.getD ⟨none, none⟩
    hasOnErrors := options.hasOnErrors
    shouldClearConsole := options.clearConsole.getD true
    formatters := concatChain builtinFormatters options.additionalFormatters
    transformers := concatChain builtinTransformers options.additionalTransformers }

/-! ## Output events -/

/-- One observable effect of the plugin: a console event
(`output.title`, `output.log`, `output.info`, `output.note`,
`output.clearConsole`) or an invocation of the `onErrors` callback. -/
inductive OutEvent where
  | clear
  | title (severity label subtitle : String)
  | logBlock (lines : List String)
  | logBlank
  | info (message : String)
  | note (message : String)
  | onErrorsCall (severity : String) (topErrors : List EnrichedError)
  deriving Repr, DecidableEq

/-! ## Compile time (source: `getStatsCompileTime`,
`getMultiStatsCompileTime`) -/

/-- The per-instance `this.previousEndTimes` map: stats index to the
last-seen end timestamp. -/
def PrevMap : Type := Nat → Option Int

/-- Source `getStatsCompileTime(stats, statsIndex)` with the instance
map threaded explicitly: with an index, an unchanged end timestamp
contributes `0`, otherwise the timestamp is recorded and the delta
returned; with no index the delta is returned and the map untouched. -/
def getStatsCompileTime (prev : PrevMap) (stats : Stats) (statsIndex : Option Nat) :
    Int × PrevMap :=
  match statsIndex with
  | some i =>
    if prev i = some stats.endTime then (0, prev)
    else (stats.endTime - stats.startTime,
      fun j => if j = i then some stats.endTime else prev j)
  | none => (stats.endTime - stats.startTime, prev)

/-- Helper for `getMultiStatsCompileTime`: the `reduce` over the stats
list, threading the accumulated `Math.max` and the instance map. -/
def getMultiStatsCompileTimeAux : PrevMap → List Stats → Nat → Int → Int × PrevMap
  | prev, [], _, time => (time, prev)
  | prev, s :: ss, i, time =>
    let r := getStatsCompileTime prev s (some i)
    getMultiStatsCompileTimeAux r.2 ss (i + 1) (max time r.1)

/-- Source `getMultiStatsCompileTime(stats)`:
`stats.stats.reduce((time, stats, index) => Math.max(time, this.getStatsCompileTime(stats, index)), 0)`. -/
def getMultiStatsCompileTime (prev : PrevMap) (ss : List Stats) : Int × PrevMap :=
  getMultiStatsCompileTimeAux prev ss 0 0

/-! ## Report emission (source: `displaySuccess`, `displayErrors`,
`doneFn`) -/

/-- Source `displaySuccess(stats)`: emits the success title with the
elapsed time, then any configured messages and notes. -/
def displaySuccess (cfg : PluginConfig) (prev : PrevMap) (stats : StatsLike) :
    List OutEvent × PrevMap :=
  let r := match stats with
    | StatsLike.multi ss => getMultiStatsCompileTime prev ss
    | StatsLike.single s => getStatsCompileTime prev s none
  ([OutEvent.title "success" "DONE" ("Compiled successfully in " ++ toString r.1 ++ "ms")]
      ++ (cfg.compilationSuccessInfo.messages.getD []).map OutEvent.info
      ++ (match cfg.compilationSuccessInfo.notes with
          | some notes => OutEvent.logBlank :: notes.map OutEvent.note
          | none => []),
    r.2)

/-- Source `displayErrors(errors, severity)`: transform, select the
maximum-severity subset, emit the title with the post-selection count
(singular word exactly at count 1), invoke `onErrors` if configured,
then log each rendered block. -/
def displayErrors (cfg : PluginConfig) (errors : List RawError) (severity : String) :
    List OutEvent :=
  let processedErrors := transformErrors errors cfg.transformers
  let topErrors := getMaxSeverityErrors processedErrors
  let nbErrors := topErrors.length
  let subtitle :=
    if severity == "error" then
      "Failed to compile with " ++ toString nbErrors ++ " " ++ severity
        ++ (if nbErrors == 1 then "" else "s")
    else
      "Compiled with " ++ toString nbErrors ++ " " ++ severity
        ++ (if nbErrors == 1 then "" else "s")
  [OutEvent.title severity severity.toUpper subtitle]
    ++ (if cfg.hasOnErrors then [OutEvent.onErrorsCall severity topErrors] else [])
    ++ (formatErrors topErrors cfg.formatters severity).map OutEvent.logBlock

/-- Source `this.clearConsole()`: emits a clear event when configured. -/
def clearConsoleEvents (cfg : PluginConfig) : List OutEvent :=
  if cfg.shouldClearConsole then [OutEvent.clear] else []

/-- Source `doneFn(stats, compilation)`: clear the console, then branch —
success when neither errors nor warnings are present, otherwise the
error branch, otherwise the warning branch. -/
def doneFn (cfg : PluginConfig) (prev : PrevMap) (stats : StatsLike) (compilation : Compilation) :
    List OutEvent × PrevMap :=
  let hasErrors := compilation.errors.length > 0
  let hasWarnings := compilation.warnings.length > 0
  if ¬hasErrors ∧ ¬hasWarnings then
    let r := displaySuccess cfg prev stats
    (clearConsoleEvents cfg ++ r.1, r.2)
  else if hasErrors then
    (clearConsoleEvents cfg ++ displayErrors cfg (extractErrorsFromStats "errors" compilation) "error",
      prev)
  else
    (clearConsoleEvents cfg ++ displayErrors cfg (extractErrorsFromStats "warnings" compilation) "warning",
      prev)

/-! ## Hook registration (source: `apply(compiler)`, modern hooks
branch) -/

/-- The mutable hook state of one compiler: the list of handlers tapped
on the `done` hook (each identified by the compilation index at which it
was registered) and the log of report-routine invocations. -/
structure HooksState where
  doneTaps : List Nat
  reports : List Nat
  deriving Repr, DecidableEq

/-- Source `apply`, hooks branch: the handler tapped on `afterCompile`
registers a fresh `done` tap (`compiler.hooks.done.tap(plugin, stats => doneFn(...))`)
every time `afterCompile` fires. -/
def fireAfterCompile (s : HooksState) (i : Nat) : HooksState :=
  { s with doneTaps := s.doneTaps ++ [i] }

/-- Firing the `done` hook runs every tapped handler once, each
invoking the report routine `doneFn`. -/
def fireDone (s : HooksState) : HooksState :=
  { s with reports := s.reports ++ s.doneTaps }

/-- One compilation cycle: `afterCompile` fires, then `done` fires. -/
def runCompilation (s : HooksState) (i : Nat) : HooksState :=
  fireDone (fireAfterCompile s i)

/-- The hook state after `k` compilation cycles of a compiler the
plugin was applied to (initially no `done` taps are registered). -/
def runCompilations : Nat → HooksState
  | 0 => { doneTaps := [], reports := [] }
  | k + 1 => runCompilation (runCompilations k) (k + 1)

/-! ## Instance-scoped state (source: `this.previousEndTimes` in the
constructor) -/

/-- A process holding several plugin instances: each instance `i` owns
its own `previousEndTimes` field, created by its constructor.  Computing
a compile time on instance `i` reads and writes that instance's field
only. -/
def instanceCompileTime (proc : Nat → PrevMap) (i : Nat) (ss : List Stats) :
    Int × (Nat → PrevMap) :=
  let r := getMultiStatsCompileTime (proc i) ss
  (r.1, fun j => if j = i then r.2 else proc j)

/-! ## Lemmas about the severity fold -/

lemma le_foldl_getMaxIntStep (l : List EnrichedError) (s : Int) :
    s ≤ l.foldl getMaxIntStep s := by
  induction l generalizing s with
  | nil => exact le_refl s
  | cons x l ih =>
    refine le_trans ?_ (ih (getMaxIntStep s x))
    unfold getMaxIntStep
    cases x.severity with
    | none => exact le_refl s
    | some v =>
      dsimp only
      split <;> omega

lemma sev_le_foldl_getMaxIntStep (e : EnrichedError) (v : Int) (hv : e.severity = some v) :
    ∀ (l : List EnrichedError) (s : Int), e ∈ l → v ≤ l.foldl getMaxIntStep s := by
  intro l
  induction l with
  | nil => intro s h; cases h
  | cons x l ih =>
    intro s h
    rcases List.mem_cons.mp h with rfl | hmem
    · refine le_trans ?_ (le_foldl_getMaxIntStep l (getMaxIntStep s e))
      unfold getMaxIntStep
      rw [hv]
      dsimp only
      split <;> omega
    · exact ih _ hmem

lemma foldl_getMaxIntStep_attained (l : List EnrichedError) :
    ∀ s : Int, l.foldl getMaxIntStep s = s ∨
      ∃ e ∈ l, e.severity = some (l.foldl getMaxIntStep s) := by
  induction l with
  | nil => intro s; exact Or.inl rfl
  | cons x l ih =>
    intro s
    rw [List.foldl_cons]
    rcases ih (getMaxIntStep s x) with h | h
    · rw [h]
      unfold getMaxIntStep
      cases hx : x.severity with
      | none => exact Or.inl rfl
      | some v =>
        dsimp only
        by_cases hlt : s < v
        · rw [if_pos hlt]
          exact Or.inr ⟨x, List.mem_cons_self x l, hx⟩
        · rw [if_neg hlt]
          exact Or.inl rfl
    · obtain ⟨e, he, hv⟩ := h
      exact Or.inr ⟨e, List.mem_cons_of_mem x he, hv⟩

lemma getMaxInt_eq_zero_of_nonpos (l : List EnrichedError)
    (h : ∀ e ∈ l, ∀ v : Int, e.severity = some v → v ≤ 0) : getMaxInt l = 0 := by
  unfold getMaxInt
  induction l with
  | nil => rfl
  | cons x l ih =>
    rw [List.foldl_cons]
    have hx : getMaxIntStep 0 x = 0 := by
      unfold getMaxIntStep
      cases hs : x.severity with
      | none => rfl
      | some v =>
        have := h x (List.mem_cons_self x l) v hs
        dsimp only
        rw [if_neg (by omega)]
    rw [hx]
    exact ih (fun e he v hv => h e (List.mem_cons_of_mem x he) v hv)

/-! ## Claim theorems -/

/-- C1: on enriched records respecting the spec's data-model invariant
(severity is a positive integer), the severity selector returns, for a
non-empty input, a non-empty subset of the input preserving relative
order in which every element's severity equals the maximum severity
occurring in the input; for an empty input it returns the empty list,
the maximum being taken as `0`. -/
theorem c1_severity_selector (l : List EnrichedError)
    (h : ∀ e ∈ l, ∃ v : Int, e.severity = some v ∧ 0 < v) :
    getMaxSeverityErrors ([] : List EnrichedError) = [] ∧
    getMaxInt ([] : List EnrichedError) = 0 ∧
    List.Sublist (getMaxSeverityErrors l) l ∧
    (l ≠ [] → getMaxSeverityErrors l ≠ [] ∧
      ∀ e ∈ getMaxSeverityErrors l, ∃ m : Int, e.severity = some m ∧
        IsGreatest {v : Int | ∃ e2 ∈ l, e2.severity = some v} m) := by
  refine ⟨rfl, rfl, List.filter_sublist l, fun hne => ?_⟩
  have hatt : ∃ e ∈ l, e.severity = some (getMaxInt l) := by
    rcases foldl_getMaxIntStep_attained l 0 with h0 | h0
    · exfalso
      obtain ⟨e0, he0⟩ := List.exists_mem_of_ne_nil l hne
      obtain ⟨v, hv, hvpos⟩ := h e0 he0
      have hle : v ≤ getMaxInt l := sev_le_foldl_getMaxIntStep e0 v hv l 0 he0
      have : getMaxInt l = 0 := h0
      omega
    · exact h0
  obtain ⟨e0, he0, hsev0⟩ := hatt
  have hmem : e0 ∈ getMaxSeverityErrors l := by
    unfold getMaxSeverityErrors
    exact List.mem_filter.mpr ⟨he0, by rw [hsev0, beq_self_eq_true]⟩
  refine ⟨List.ne_nil_of_mem hmem, fun e he => ?_⟩
  have he' := List.mem_filter.mp he
  have hsev : e.severity = some (getMaxInt l) := by
    have := he'.2
    simpa using this
  refine ⟨getMaxInt l, hsev, ⟨e0, he0, hsev0⟩, fun v hv => ?_⟩
  obtain ⟨e2, he2, hv2⟩ := hv
  exact sev_le_foldl_getMaxIntStep e2 v hv2 l 0 he2

/-- Witness for C1 at a concrete two-record input with severities 2
and 1: the hypothesis holds and the selector's output is non-empty. -/
theorem c1_severity_selector_witness :
    (∀ e ∈ ([⟨"a", "m1", none, some 2⟩, ⟨"b", "m2", none, some 1⟩] : List EnrichedError),
      ∃ v : Int, e.severity = some v ∧ 0 < v) ∧
    getMaxSeverityErrors
      ([⟨"a", "m1", none, some 2⟩, ⟨"b", "m2", none, some 1⟩] : List EnrichedError) ≠ [] := by
  have h : ∀ e ∈ ([⟨"a", "m1", none, some 2⟩, ⟨"b", "m2", none, some 1⟩] : List EnrichedError),
      ∃ v : Int, e.severity = some v ∧ 0 < v := by
    intro e he
    rcases List.mem_cons.mp he with rfl | he2
    · exact ⟨2, rfl, by norm_num⟩
    rcases List.mem_cons.mp he2 with rfl | he3
    · exact ⟨1, rfl, by norm_num⟩
    · cases he3
  exact ⟨h, ((c1_severity_selector _ h).2.2.2 (by decide)).1⟩

/-- C9: when no record's severity exceeds `0`, the fold seeding the
maximum with `0` makes the selector return exactly the records whose
severity is strictly equal to `0`; in particular, when every severity is
missing or negative the selector returns the empty list even on
non-empty input. -/
theorem c9_nonpositive_severities (l : List EnrichedError) :
    ((∀ e ∈ l, ∀ v : Int, e.severity = some v → v ≤ 0) →
      getMaxSeverityErrors l = l.filter (fun e => e.severity == some 0)) ∧
    ((∀ e ∈ l, ∀ v : Int, e.severity = some v → v < 0) →
      getMaxSeverityErrors l = []) := by
  constructor
  · intro h
    unfold getMaxSeverityErrors
    rw [getMaxInt_eq_zero_of_nonpos l h]
  · intro h
    unfold getMaxSeverityErrors
    rw [getMaxInt_eq_zero_of_nonpos l (fun e he v hv => le_of_lt (h e he v hv))]
    rw [List.filter_eq_nil_iff]
    intro e he
    cases hs : e.severity with
    | none => simp [hs]
    | some v =>
      have := h e he v hs
      simp [hs]
      omega

/-- Witness for C9 at a concrete non-empty input whose only record has
severity `-1`: the hypothesis holds and the selector returns the empty
list. -/
theorem c9_nonpositive_severities_witness :
    (∀ e ∈ ([⟨"a", "m", none, some (-1)⟩] : List EnrichedError),
      ∀ v : Int, e.severity = some v → v < 0) ∧
    getMaxSeverityErrors ([⟨"a", "m", none, some (-1)⟩] : List EnrichedError) = [] := by
  have h : ∀ e ∈ ([⟨"a", "m", none, some (-1)⟩] : List EnrichedError),
      ∀ v : Int, e.severity = some v → v < 0 := by
    intro e he v hv
    rw [List.mem_singleton] at he
    subst he
    simp only [EnrichedError.severity] at hv
    injection hv with hv'
    omega
  exact ⟨h, (c9_nonpositive_severities _).2 h⟩

/-! ## Lemmas about deduplication -/

lemma uniqueByAux_sublist (key : RawError → String) :
    ∀ (l : List RawError) (seen : List String), List.Sublist (uniqueByAux key l seen) l := by
  intro l
  induction l with
  | nil => intro seen; exact List.Sublist.refl []
  | cons x xs ih =>
    intro seen
    unfold uniqueByAux
    by_cases hseen : key x ∈ seen
    · rw [if_pos hseen]
      exact List.Sublist.cons x (ih seen)
    · rw [if_neg hseen]
      exact List.Sublist.cons₂ x (ih (key x :: seen))

lemma uniqueByAux_key_not_seen (key : RawError → String) :
    ∀ (l : List RawError) (seen : List String), ∀ e ∈ uniqueByAux key l seen, key e ∉ seen := by
  intro l
  induction l with
  | nil => intro seen e he; cases he
  | cons x xs ih =>
    intro seen e he
    unfold uniqueByAux at he
    by_cases hseen : key x ∈ seen
    · rw [if_pos hseen] at he
      exact ih seen e he
    · rw [if_neg hseen] at he
      rcases List.mem_cons.mp he with rfl | he2
      · exact hseen
      · have := ih (key x :: seen) e he2
        exact fun hmem => this (List.mem_cons_of_mem _ hmem)

lemma uniqueByAux_pairwise (key : RawError → String) :
    ∀ (l : List RawError) (seen : List String),
      (uniqueByAux key l seen).Pairwise (fun a b => key a ≠ key b) := by
  intro l
  induction l with
  | nil => intro seen; exact List.Pairwise.nil
  | cons x xs ih =>
    intro seen
    unfold uniqueByAux
    by_cases hseen : key x ∈ seen
    · rw [if_pos hseen]
      exact ih seen
    · rw [if_neg hseen]
      refine List.Pairwise.cons ?_ (ih (key x :: seen))
      intro b hb
      have := uniqueByAux_key_not_seen key xs (key x :: seen) b hb
      intro hxb
      exact this (hxb ▸ List.mem_cons_self (key x) seen)

lemma uniqueByAux_find? (key : RawError → String) (m : String) :
    ∀ (l : List RawError) (seen : List String), m ∉ seen →
      (uniqueByAux key l seen).find? (fun e => key e == m) =
        l.find? (fun e => key e == m) := by
  intro l
  induction l with
  | nil => intro seen _; rfl
  | cons x xs ih =>
    intro seen hm
    unfold uniqueByAux
    by_cases hseen : key x ∈ seen
    · rw [if_pos hseen]
      have hne : (key x == m) = false := by
        rw [beq_eq_false_iff_ne]
        intro hxm
        exact hm (hxm ▸ hseen)
      rw [List.find?_cons, hne]
      exact ih seen hm
    · rw [if_neg hseen]
      by_cases hxm : key x = m
      · have hpos : (key x == m) = true := beq_iff_eq.mpr hxm
        rw [List.find?_cons, List.find?_cons, hpos]
      · have hneg : (key x == m) = false := beq_eq_false_iff_ne.mpr hxm
        rw [List.find?_cons, List.find?_cons, hneg]
        refine ih (key x :: seen) ?_
        intro hmem
        rcases List.mem_cons.mp hmem with h | h
        · exact hxm h.symm
        · exact hm h

/-- C4: deduplication by message is a subsequence of the input (length
at most the input's, relative order preserved), no two kept records
share a byte-identical message, and for every message value the record
the output yields first is exactly the input's first occurrence; the
plugin's `extractErrorsFromStats` applies exactly this deduplication to
the compilation's error list. -/
theorem c4_dedupe (l : List RawError) :
    (uniqueBy l (fun e => e.message)).length ≤ l.length ∧
    List.Sublist (uniqueBy l (fun e => e.message)) l ∧
    (uniqueBy l (fun e => e.message)).Pairwise (fun a b => a.message ≠ b.message) ∧
    (∀ m : String,
      (uniqueBy l (fun e => e.message)).find? (fun e => e.message == m) =
        l.find? (fun e => e.message == m)) ∧
    (∀ compilation : Compilation,
      extractErrorsFromStats "errors" compilation =
        uniqueBy compilation.errors (fun e => e.message)) := by
  refine ⟨?_, ?_, ?_, ?_, ?_⟩
  · exact (uniqueByAux_sublist _ l []).length_le
  · exact uniqueByAux_sublist _ l []
  · exact uniqueByAux_pairwise _ l []
  · intro m
    exact uniqueByAux_find? _ m l [] (List.not_mem_nil m)
  · intro compilation
    rfl

/-! ## The title subtitle and the done-hook branching -/

/-- The subtitle as the spec words it: "Failed to compile with n
error(s)" / "Compiled with n warning(s)", singular exactly when the
count is one. -/
def subtitleSpec (severity : String) (n : Nat) : String :=
  if severity = "error" then
    "Failed to compile with " ++ toString n ++ (if n = 1 then " error" else " errors")
  else
    "Compiled with " ++ toString n ++ (if n = 1 then " warning" else " warnings")

lemma displayErrors_head? (cfg : PluginConfig) (errors : List RawError) (severity : String) :
    (displayErrors cfg errors severity).head? =
      some (OutEvent.title severity severity.toUpper
        (if severity == "error" then
          "Failed to compile with "
            ++ toString (getMaxSeverityErrors (transformErrors errors cfg.transformers)).length
            ++ " " ++ severity
            ++ (if (getMaxSeverityErrors (transformErrors errors cfg.transformers)).length == 1
                then "" else "s")
        else
          "Compiled with "
            ++ toString (getMaxSeverityErrors (transformErrors errors cfg.transformers)).length
            ++ " " ++ severity
            ++ (if (getMaxSeverityErrors (transformErrors errors cfg.transformers)).length == 1
                then "" else "s"))) := rfl

lemma subtitle_error_eq_spec (n : Nat) :
    ("Failed to compile with " ++ toString n ++ " " ++ "error"
        ++ (if n == 1 then "" else "s")) = subtitleSpec "error" n := by
  unfold subtitleSpec
  rw [if_pos rfl]
  by_cases h1 : n = 1
  · subst h1
    decide
  · have hb : ¬((n == 1) = true) := by simp [h1]
    rw [if_neg hb, if_neg h1, String.append_assoc, String.append_assoc]
    rfl

lemma subtitle_warning_eq_spec (n : Nat) :
    ("Compiled with " ++ toString n ++ " " ++ "warning"
        ++ (if n == 1 then "" else "s")) = subtitleSpec "warning" n := by
  unfold subtitleSpec
  rw [if_neg (show ¬("warning" = "error") by decide)]
  by_cases h1 : n = 1
  · subst h1
    decide
  · have hb : ¬((n == 1) = true) := by simp [h1]
    rw [if_neg hb, if_neg h1, String.append_assoc, String.append_assoc]
    rfl

/-- C3: the first emitted event of an error/warning report is the title
whose subtitle is "Failed to compile with n error(s)" respectively
"Compiled with n warning(s)", where n is the record count after
severity selection of the transformed records (not the raw count) and
the word is singular exactly when n is one. -/
theorem c3_subtitle (cfg : PluginConfig) (errors : List RawError) (severity : String)
    (h : severity = "error" ∨ severity = "warning") :
    (displayErrors cfg errors severity).head? =
      some (OutEvent.title severity severity.toUpper
        (subtitleSpec severity
          (getMaxSeverityErrors (transformErrors errors cfg.transformers)).length)) := by
  rcases h with rfl | rfl
  · rw [displayErrors_head?, if_pos (show (("error" == "error") = true) from rfl),
      subtitle_error_eq_spec]
  · rw [displayErrors_head?, if_neg (show ¬(("warning" == "error") = true) by decide),
      subtitle_warning_eq_spec]

/-- Witness for C3 at a concrete one-error input on a plugin with empty
chains: the hypothesis holds and the title carries the singular
subtitle. -/
theorem c3_subtitle_witness :
    (("error" : String) = "error" ∨ ("error" : String) = "warning") ∧
    (displayErrors ⟨⟨none, none⟩, false, true, [], []⟩ [⟨"boom", none⟩] "error").head? =
      some (OutEvent.title "error" ("error".toUpper) (subtitleSpec "error"
        (getMaxSeverityErrors
          (transformErrors [⟨"boom", none⟩] (⟨⟨none, none⟩, false, true, [], []⟩ :
            PluginConfig).transformers)).length)) :=
  ⟨Or.inl rfl, c3_subtitle ⟨⟨none, none⟩, false, true, [], []⟩ [⟨"boom", none⟩] "error" (Or.inl rfl)⟩

lemma title_severity_of_mem_displayErrors (cfg : PluginConfig) (errors : List RawError)
    (severity sev2 label subtitle : String)
    (h : OutEvent.title sev2 label subtitle ∈ displayErrors cfg errors severity) :
    sev2 = severity := by
  unfold displayErrors at h
  rcases List.mem_append.mp h with h1 | h2
  · rcases List.mem_append.mp h1 with h3 | h4
    · rw [List.mem_singleton] at h3
      simp only [OutEvent.title.injEq] at h3
      exact h3.1
    · exfalso
      by_cases hc : cfg.hasOnErrors
      · rw [if_pos hc, List.mem_singleton] at h4
        cases h4
      · rw [if_neg hc] at h4
        cases h4
  · exfalso
    obtain ⟨b, _, hb⟩ := List.mem_map.mp h2
    cases hb

/-- C2: when errors are present the done hook runs the error branch
exclusively — the emitted events are the console clear followed by the
error report, the instance state is untouched, and no warning title is
emitted in the same pass; the warning branch runs only when there are
no errors and some warnings. -/
theorem c2_error_precedence (cfg : PluginConfig) (prev : PrevMap) (stats : StatsLike)
    (compilation : Compilation) :
    (compilation.errors ≠ [] →
      doneFn cfg prev stats compilation =
        (clearConsoleEvents cfg
          ++ displayErrors cfg (extractErrorsFromStats "errors" compilation) "error", prev) ∧
      ∀ label subtitle,
        OutEvent.title "warning" label subtitle ∉ (doneFn cfg prev stats compilation).1) ∧
    (compilation.errors = [] → compilation.warnings ≠ [] →
      doneFn cfg prev stats compilation =
        (clearConsoleEvents cfg
          ++ displayErrors cfg (extractErrorsFromStats "warnings" compilation) "warning", prev)) := by
  constructor
  · intro herr
    have hE : compilation.errors.length > 0 := List.length_pos.mpr herr
    have heq : doneFn cfg prev stats compilation =
        (clearConsoleEvents cfg
          ++ displayErrors cfg (extractErrorsFromStats "errors" compilation) "error", prev) := by
      unfold doneFn
      rw [if_neg (fun hc => hc.1 hE), if_pos hE]
    refine ⟨heq, fun label subtitle hmem => ?_⟩
    rw [heq] at hmem
    rcases List.mem_append.mp hmem with h1 | h2
    · unfold clearConsoleEvents at h1
      by_cases hc : cfg.shouldClearConsole
      · rw [if_pos hc, List.mem_singleton] at h1
        cases h1
      · rw [if_neg hc] at h1
        cases h1
    · have := title_severity_of_mem_displayErrors _ _ _ _ _ _ h2
      exact absurd this (by decide)
  · intro herr hwarn
    have hW : compilation.warnings.length > 0 := List.length_pos.mpr hwarn
    have hE : ¬compilation.errors.length > 0 := by
      rw [herr]
      decide
    unfold doneFn
    rw [if_neg (fun hc => hc.2 hW), if_neg hE]

/-- Witness for C2 at a concrete compilation carrying one error and one
warning: the error list is non-empty and the done hook emits exactly
the error branch. -/
theorem c2_error_precedence_witness :
    ((⟨[⟨"boom", none⟩], [⟨"warn", none⟩]⟩ : Compilation).errors ≠ []) ∧
    doneFn ⟨⟨none, none⟩, false, true, [], []⟩ (fun _ => none) (StatsLike.single ⟨0, 5⟩)
        ⟨[⟨"boom", none⟩], [⟨"warn", none⟩]⟩ =
      (clearConsoleEvents ⟨⟨none, none⟩, false, true, [], []⟩
        ++ displayErrors ⟨⟨none, none⟩, false, true, [], []⟩
            (extractErrorsFromStats "errors" ⟨[⟨"boom", none⟩], [⟨"warn", none⟩]⟩) "error",
        fun _ => none) :=
  ⟨by decide,
    ((c2_error_precedence ⟨⟨none, none⟩, false, true, [], []⟩ (fun _ => none)
      (StatsLike.single ⟨0, 5⟩) ⟨[⟨"boom", none⟩], [⟨"warn", none⟩]⟩).1 (by decide)).1⟩

/-! ## Lemmas about compile-time aggregation -/

lemma le_foldl_max (l : List Int) : ∀ b : Int, b ≤ l.foldl max b := by
  induction l with
  | nil => intro b; exact le_refl b
  | cons x l ih => intro b; exact le_trans (le_max_left b x) (ih (max b x))

lemma fst_ge_of_mem_enumFrom {α : Type} (l : List α) :
    ∀ (i : Nat) (p : Nat × α), p ∈ List.enumFrom i l → i ≤ p.1 := by
  induction l with
  | nil => intro i p hp; cases hp
  | cons x l ih =>
    intro i p hp
    rcases List.mem_cons.mp hp with rfl | hp2
    · exact le_refl i
    · exact Nat.le_of_succ_le (ih (i + 1) p hp2)

lemma getStatsCompileTime_snd_ne (prev : PrevMap) (s : Stats) (i j : Nat) (hij : j ≠ i) :
    (getStatsCompileTime prev s (some i)).2 j = prev j := by
  unfold getStatsCompileTime
  dsimp only
  by_cases hp : prev i = some s.endTime
  · rw [if_pos hp]
  · rw [if_neg hp]
    dsimp only
    rw [if_neg hij]

lemma getMultiStatsCompileTimeAux_fst (ss : List Stats) :
    ∀ (prev : PrevMap) (i : Nat) (time : Int),
      (getMultiStatsCompileTimeAux prev ss i time).1 =
        ((List.enumFrom i ss).map (fun p =>
          if prev p.1 = some p.2.endTime then (0 : Int)
          else p.2.endTime - p.2.startTime)).foldl max time := by
  induction ss with
  | nil => intro prev i time; rfl
  | cons s ss ih =>
    intro prev i time
    show (getMultiStatsCompileTimeAux (getStatsCompileTime prev s (some i)).2 ss (i + 1)
        (max time (getStatsCompileTime prev s (some i)).1)).1 = _
    rw [ih]
    have hmap : (List.enumFrom (i + 1) ss).map (fun p =>
          if (getStatsCompileTime prev s (some i)).2 p.1 = some p.2.endTime then (0 : Int)
          else p.2.endTime - p.2.startTime) =
        (List.enumFrom (i + 1) ss).map (fun p =>
          if prev p.1 = some p.2.endTime then (0 : Int)
          else p.2.endTime - p.2.startTime) := by
      refine List.map_congr_left (fun p hp => ?_)
      have hge : i + 1 ≤ p.1 := fst_ge_of_mem_enumFrom ss (i + 1) p hp
      rw [getStatsCompileTime_snd_ne prev s i p.1 (by omega)]
    rw [hmap]
    have hhead : (getStatsCompileTime prev s (some i)).1 =
        (if prev i = some s.endTime then (0 : Int) else s.endTime - s.startTime) := by
      unfold getStatsCompileTime
      dsimp only
      by_cases hp : prev i = some s.endTime
      · rw [if_pos hp, if_pos hp]
      · rw [if_neg hp, if_neg hp]
    rw [hhead]
    rfl

lemma displaySuccess_head? (cfg : PluginConfig) (prev : PrevMap) (stats : StatsLike) :
    (displaySuccess cfg prev stats).1.head? =
      some (OutEvent.title "success" "DONE"
        ("Compiled successfully in "
          ++ toString (match stats with
            | StatsLike.multi ss => (getMultiStatsCompileTime prev ss).1
            | StatsLike.single s => (getStatsCompileTime prev s none).1)
          ++ "ms")) := by
  cases stats <;> rfl

/-- C5: the success report's title carries the elapsed compile time; for
a multi-stats run it is a non-negative value equal to the maximum, over
the indexed targets, of the end-minus-start delta, where a target whose
end timestamp equals the instance's previously recorded one contributes
zero; for a single-stats run with a well-ordered clock it is the
non-negative end-minus-start delta. -/
theorem c5_success_compile_time (cfg : PluginConfig) (prev : PrevMap) (ss : List Stats) :
    (∃ t : Int,
      (displaySuccess cfg prev (StatsLike.multi ss)).1.head? =
        some (OutEvent.title "success" "DONE"
          ("Compiled successfully in " ++ toString t ++ "ms")) ∧
      0 ≤ t ∧
      t = ((List.enumFrom 0 ss).map (fun p =>
            if prev p.1 = some p.2.endTime then (0 : Int)
            else p.2.endTime - p.2.startTime)).foldl max 0) ∧
    (∀ s : Stats, s.startTime ≤ s.endTime →
      ∃ t : Int,
        (displaySuccess cfg prev (StatsLike.single s)).1.head? =
          some (OutEvent.title "success" "DONE"
            ("Compiled successfully in " ++ toString t ++ "ms")) ∧
        0 ≤ t ∧ t = s.endTime - s.startTime) := by
  constructor
  · refine ⟨(getMultiStatsCompileTime prev ss).1, displaySuccess_head? cfg prev _, ?_, ?_⟩
    · show 0 ≤ (getMultiStatsCompileTimeAux prev ss 0 0).1
      rw [getMultiStatsCompileTimeAux_fst]
      exact le_foldl_max _ 0
    · exact getMultiStatsCompileTimeAux_fst ss prev 0 0
  · intro s hs
    refine ⟨(getStatsCompileTime prev s none).1, displaySuccess_head? cfg prev _, ?_, rfl⟩
    show (0 : Int) ≤ s.endTime - s.startTime
    omega

/-- Witness for C5 at a concrete single-stats run from time 0 to 5:
the clock hypothesis holds and the title carries a non-negative delta. -/
theorem c5_success_compile_time_witness :
    ((⟨0, 5⟩ : Stats).startTime ≤ (⟨0, 5⟩ : Stats).endTime) ∧
    ∃ t : Int,
      (displaySuccess ⟨⟨none, none⟩, false, true, [], []⟩ (fun _ => none)
          (StatsLike.single ⟨0, 5⟩)).1.head? =
        some (OutEvent.title "success" "DONE"
          ("Compiled successfully in " ++ toString t ++ "ms")) ∧
      0 ≤ t ∧ t = (⟨0, 5⟩ : Stats).endTime - (⟨0, 5⟩ : Stats).startTime :=
  ⟨by decide,
    (c5_success_compile_time ⟨⟨none, none⟩, false, true, [], []⟩ (fun _ => none) []).2
      ⟨0, 5⟩ (by decide)⟩

/-- C6: the previous-end-times bookkeeping is scoped per plugin
instance: computing a compile time on instance `i` of a process leaves
every other instance's map untouched, and the computed value depends
only on instance `i`'s own map. -/
theorem c6_instance_scoped_state (proc proc2 : Nat → PrevMap) (i j : Nat) (ss : List Stats)
    (hij : j ≠ i) (hagree : proc i = proc2 i) :
    (instanceCompileTime proc i ss).2 j = proc j ∧
    (instanceCompileTime proc i ss).1 = (instanceCompileTime proc2 i ss).1 := by
  constructor
  · show (if j = i then (getMultiStatsCompileTime (proc i) ss).2 else proc j) = proc j
    rw [if_neg hij]
  · show (getMultiStatsCompileTime (proc i) ss).1 = (getMultiStatsCompileTime (proc2 i) ss).1
    rw [hagree]

/-- Witness for C6 at two concrete instances 0 and 1 of the same
process: instance 1's map is untouched by instance 0's computation. -/
theorem c6_instance_scoped_state_witness :
    ((1 : Nat) ≠ 0 ∧ (fun _ : Nat => (fun _ => none : PrevMap)) 0 =
      (fun _ : Nat => (fun _ => none : PrevMap)) 0) ∧
    (instanceCompileTime (fun _ : Nat => (fun _ => none : PrevMap)) 0 [⟨0, 5⟩]).2 1 =
      (fun _ : Nat => (fun _ => none : PrevMap)) 1 :=
  ⟨⟨by decide, rfl⟩,
    (c6_instance_scoped_state (fun _ => (fun _ => none)) (fun _ => (fun _ => none)) 0 1 [⟨0, 5⟩]
      (by decide) rfl).1⟩

/-! ## Lemmas about the chains -/

lemma applyFormatters_all_none :
    ∀ (fs : List Formatter) (sev : String) (e : EnrichedError),
      (∀ g ∈ fs, g e = none) → applyFormatters fs sev e = defaultFormat sev e := by
  intro fs
  induction fs with
  | nil => intro sev e _; rfl
  | cons f rest ih =>
    intro sev e h
    have hf := h f (List.mem_cons_self f rest)
    simp only [applyFormatters, hf]
    exact ih sev e (fun g hg => h g (List.mem_cons_of_mem f hg))

lemma applyFormatters_first_match :
    ∀ (fs1 : List Formatter) (f : Formatter) (fs2 : List Formatter) (sev : String)
      (e : EnrichedError) (b : List String),
      (∀ g ∈ fs1, g e = none) → f e = some b →
      applyFormatters (fs1 ++ f :: fs2) sev e = b := by
  intro fs1
  induction fs1 with
  | nil =>
    intro f fs2 sev e b _ hf
    simp only [List.nil_append, applyFormatters, hf]
  | cons g rest ih =>
    intro f fs2 sev e b h hf
    have hg := h g (List.mem_cons_self g rest)
    simp only [List.cons_append, applyFormatters, hg]
    exact ih f fs2 sev e b (fun u hu => h u (List.mem_cons_of_mem g hu)) hf

lemma applyTransformers_all_none :
    ∀ (ts : List Transformer) (raw : RawError),
      (∀ u ∈ ts, u raw = none) → applyTransformers ts raw = defaultEnrich raw := by
  intro ts
  induction ts with
  | nil => intro raw _; rfl
  | cons t rest ih =>
    intro raw h
    have ht := h t (List.mem_cons_self t rest)
    simp only [applyTransformers, ht]
    exact ih raw (fun u hu => h u (List.mem_cons_of_mem t hu))

lemma applyTransformers_first_match :
    ∀ (ts1 : List Transformer) (t : Transformer) (ts2 : List Transformer) (raw : RawError)
      (e : EnrichedError),
      (∀ u ∈ ts1, u raw = none) → t raw = some e →
      applyTransformers (ts1 ++ t :: ts2) raw = e := by
  intro ts1
  induction ts1 with
  | nil =>
    intro t ts2 raw e _ ht
    simp only [List.nil_append, applyTransformers, ht]
  | cons u rest ih =>
    intro t ts2 raw e h ht
    have hu := h u (List.mem_cons_self u rest)
    simp only [applyTransformers, hu]
    exact ih t ts2 raw e (fun w hw => h w (List.mem_cons_of_mem u hw)) ht

/-- C7: the constructed chains are built-ins followed by the
caller-supplied additions; both chains are tried in order with the
first match winning; a record every formatter declines falls back to
the default formatter; and when every built-in formatter declines a
record, a matching caller-supplied formatter at the head of the
additions produces the rendered block. -/
theorem c7_chain_order (bt : List Transformer) (bf : List Formatter) (opts : Options) :
    (mkPlugin bt bf opts).transformers = bt ++ opts.additionalTransformers.getD [] ∧
    (mkPlugin bt bf opts).formatters = bf ++ opts.additionalFormatters.getD [] ∧
    (∀ (fs1 : List Formatter) (f : Formatter) (fs2 : List Formatter) (sev : String)
        (e : EnrichedError) (b : List String),
      (∀ g ∈ fs1, g e = none) → f e = some b →
      applyFormatters (fs1 ++ f :: fs2) sev e = b) ∧
    (∀ (fs : List Formatter) (sev : String) (e : EnrichedError),
      (∀ g ∈ fs, g e = none) → applyFormatters fs sev e = defaultFormat sev e) ∧
    (∀ (ts1 : List Transformer) (t : Transformer) (ts2 : List Transformer) (raw : RawError)
        (e : EnrichedError),
      (∀ u ∈ ts1, u raw = none) → t raw = some e →
      applyTransformers (ts1 ++ t :: ts2) raw = e) ∧
    (∀ (ts : List Transformer) (raw : RawError),
      (∀ u ∈ ts, u raw = none) → applyTransformers ts raw = defaultEnrich raw) ∧
    (∀ (g : Formatter) (gs : List Formatter) (sev : String) (e : EnrichedError)
        (b : List String),
      opts.additionalFormatters = some (g :: gs) →
      (∀ f0 ∈ bf, f0 e = none) → g e = some b →
      applyFormatters (mkPlugin bt bf opts).formatters sev e = b) := by
  refine ⟨rfl, rfl, applyFormatters_first_match, applyFormatters_all_none,
    applyTransformers_first_match, applyTransformers_all_none,
    fun g gs sev e b hadd hbf hg => ?_⟩
  show applyFormatters (concatChain bf opts.additionalFormatters) sev e = b
  unfold concatChain
  rw [hadd]
  exact applyFormatters_first_match bf g gs sev e b hbf hg

/-- Witness for C7: one declining built-in formatter and one
caller-supplied formatter that renders the record's message — the
caller-supplied formatter is reached. -/
theorem c7_chain_order_witness :
    ((⟨none, false, none, some [fun e => some [e.message]], none⟩ : Options).additionalFormatters =
      some ((fun e => some [e.message]) :: []) ∧
      (∀ f0 ∈ ([fun _ => none] : List Formatter),
        f0 (⟨"n", "msg", none, some 1⟩ : EnrichedError) = none) ∧
      (fun (e : EnrichedError) => some [e.message]) (⟨"n", "msg", none, some 1⟩ : EnrichedError) =
        some ["msg"]) ∧
    applyFormatters
      (mkPlugin [] [fun _ => none]
        ⟨none, false, none, some [fun e => some [e.message]], none⟩).formatters
      "error" (⟨"n", "msg", none, some 1⟩ : EnrichedError) = ["msg"] := by
  have hbf : ∀ f0 ∈ ([fun _ => none] : List Formatter),
      f0 (⟨"n", "msg", none, some 1⟩ : EnrichedError) = none := by
    intro f0 hf0
    rw [List.mem_singleton] at hf0
    subst hf0
    rfl
  exact ⟨⟨rfl, hbf, rfl⟩,
    (c7_chain_order [] [fun _ => none]
      ⟨none, false, none, some [fun e => some [e.message]], none⟩).2.2.2.2.2.2
      (fun e => some [e.message]) [] "error" ⟨"n", "msg", none, some 1⟩ ["msg"] rfl hbf rfl⟩

/-- C8: the report pipeline is a pure function of the instance state and
the raw input — when a run does not mutate the shared state, a second
run on the same raw input renders identical output; the error branch in
particular never mutates the state. -/
theorem c8_deterministic_pipeline (cfg : PluginConfig) (prev : PrevMap) (stats : StatsLike)
    (compilation : Compilation)
    (h : (doneFn cfg prev stats compilation).2 = prev) :
    (doneFn cfg ((doneFn cfg prev stats compilation).2) stats compilation).1 =
      (doneFn cfg prev stats compilation).1 ∧
    (compilation.errors ≠ [] → (doneFn cfg prev stats compilation).2 = prev) := by
  refine ⟨by rw [h], fun herr => ?_⟩
  have hE : compilation.errors.length > 0 := List.length_pos.mpr herr
  unfold doneFn
  rw [if_neg (fun hc => hc.1 hE), if_pos hE]

/-- Witness for C8 at a concrete one-error input: the first run leaves
the state untouched and the second run renders the same output. -/
theorem c8_deterministic_pipeline_witness :
    ((doneFn ⟨⟨none, none⟩, false, true, [], []⟩ (fun _ => none) (StatsLike.single ⟨0, 5⟩)
        ⟨[⟨"boom", none⟩], []⟩).2 = (fun _ => none)) ∧
    (doneFn ⟨⟨none, none⟩, false, true, [], []⟩
        ((doneFn ⟨⟨none, none⟩, false, true, [], []⟩ (fun _ => none) (StatsLike.single ⟨0, 5⟩)
          ⟨[⟨"boom", none⟩], []⟩).2) (StatsLike.single ⟨0, 5⟩) ⟨[⟨"boom", none⟩], []⟩).1 =
      (doneFn ⟨⟨none, none⟩, false, true, [], []⟩ (fun _ => none) (StatsLike.single ⟨0, 5⟩)
        ⟨[⟨"boom", none⟩], []⟩).1 := by
  have h : (doneFn ⟨⟨none, none⟩, false, true, [], []⟩ (fun _ => none) (StatsLike.single ⟨0, 5⟩)
      ⟨[⟨"boom", none⟩], []⟩).2 = (fun _ => none) := rfl
  exact ⟨h, (c8_deterministic_pipeline _ _ _ _ h).1⟩

/-! ## Lemmas about hook accumulation -/

lemma runCompilations_doneTaps_length (k : Nat) :
    (runCompilations k).doneTaps.length = k := by
  induction k with
  | zero => rfl
  | succ k ih =>
    show (runCompilation (runCompilations k) (k + 1)).doneTaps.length = k + 1
    unfold runCompilation fireDone fireAfterCompile
    dsimp only
    rw [List.length_append, ih]
    rfl

lemma runCompilations_reports_length (k : Nat) :
    (runCompilations (k + 1)).reports.length = (runCompilations k).reports.length + (k + 1) := by
  show (runCompilation (runCompilations k) (k + 1)).reports.length = _
  unfold runCompilation fireDone fireAfterCompile
  dsimp only
  rw [List.length_append, List.length_append, runCompilations_doneTaps_length k]
  rfl

/-- C10: with the hooks API, each compilation's `afterCompile` event
registers one more `done` tap, so after `k` compilations `k` handlers
are registered and the `k+1`-st `done` event invokes the report routine
`k+1` times; past the first compilation a report is never emitted
exactly once per compilation. -/
theorem c10_accumulating_done_taps (k : Nat) :
    (runCompilations k).doneTaps.length = k ∧
    (runCompilations (k + 1)).reports.length = (runCompilations k).reports.length + (k + 1) ∧
    (2 ≤ k →
      (runCompilations k).reports.length ≠ (runCompilations (k - 1)).reports.length + 1) := by
  refine ⟨runCompilations_doneTaps_length k, runCompilations_reports_length k, fun hk => ?_⟩
  obtain ⟨m, rfl⟩ : ∃ m, k = m + 1 := ⟨k - 1, by omega⟩
  rw [Nat.add_sub_cancel, runCompilations_reports_length m]
  omega

/-- Witness for C10 at the second compilation: the `done` event fires
the report routine twice, not once. -/
theorem c10_accumulating_done_taps_witness :
    (2 ≤ 2) ∧
    (runCompilations 2).reports.length ≠ (runCompilations 1).reports.length + 1 :=
  ⟨by decide, (c10_accumulating_done_taps 2).2.2 (by decide)⟩

end FriendlyErrors
